import Mathlib

set_option maxHeartbeats 1000000

/-! Verification of the community merge algorithm of
`src/reframed/community/model.py` (class `Community`).

The Python file consumes data structures of the underlying model library
(`Compartment`, `Metabolite`, `Gene`, `Protein`, `GPRAssociation`,
`CBReaction`, `CBModel`); those types and their constructor defaults are
not under `src/`, so they are modelled from the specification (each such
definition is marked "Modelled from the spec").  The merge algorithm
itself is translated line by line from `Community.merge_models`,
`Community.__init__` and the `Community.merged_model` accessor. -/

/-- Modelled from the spec: metadata is an open key-value annotation map
copied verbatim on merge (§3, §9 "dynamic metadata bags"). -/
abbrev Metadata := List (String × String)

/-- Modelled from the spec: a reaction-type tag distinguishing at least
internal and exchange reactions (§3); the constructor default is the
internal tag.  The source only ever names `ReactionType.EXCHANGE`. -/
inductive ReactionType where
  | internal
  | exchange
deriving DecidableEq

/-- Modelled from the spec: a compartment has an id, a display name and an
external flag marking the boundary compartment (§3); the flag defaults to
false when not passed to the constructor. -/
structure Compartment where
  id : String
  name : String
  external : Bool := false
deriving DecidableEq

/-- Modelled from the spec: a metabolite has an id, a display name, an
owning compartment id and metadata (§3); metadata defaults to empty. -/
structure Metabolite where
  id : String
  name : String
  compartment : String
  metadata : Metadata := []
deriving DecidableEq

/-- Modelled from the spec: a gene has an id, a display name and
metadata (§3). -/
structure Gene where
  id : String
  name : String
  metadata : Metadata := []
deriving DecidableEq

/-- Modelled from the spec: a protein is an AND-combined list of gene ids
with metadata (§3). -/
structure Protein where
  genes : List String := []
  metadata : Metadata := []
deriving DecidableEq

/-- Modelled from the spec: a GPR association is an ordered list of
alternative proteins (OR across proteins) with metadata (§3). -/
structure GPRAssociation where
  proteins : List Protein := []
  metadata : Metadata := []
deriving DecidableEq

/-- Extended value for flux bounds: minus infinity, a finite rational, or
plus infinity (`math.inf` in the source). -/
inductive Flt where
  | negInf
  | val (q : ℚ)
  | posInf
deriving DecidableEq

/-- Modelled from the spec: a constraint-based reaction carries an id, a
display name, a reversibility flag, a stoichiometry map
(metabolite id to signed coefficient), flux bounds, an objective
coefficient, a reaction-type tag and an optional GPR association (§3).
Python dicts are modelled as ordered association lists with unique keys.
Constructor defaults (used when the merge builds reactions without
passing every argument): empty name, reversible, objective 0, internal
type, no GPR, empty metadata (§4.4 "reset to reaction-type defaults"). -/
structure CBReaction where
  id : String
  name : String := ""
  reversible : Bool := true
  stoichiometry : List (String × ℚ) := []
  lb : Flt
  ub : Flt := Flt.posInf
  objective : ℚ := 0
  reaction_type : ReactionType := ReactionType.internal
  gpr : Option GPRAssociation := none
  metadata : Metadata := []
deriving DecidableEq

/-- Modelled from the spec: default lower flux bound of the reaction
constructor when none is passed — unbounded below for a reversible
reaction, 0 for an irreversible one (§3, §4.4). -/
def defaultLb (reversible : Bool) : Flt :=
  if reversible then Flt.negInf else Flt.val 0

/-- Modelled from the spec: a model container exposing ordered,
uniquely-keyed collections of compartments, metabolites, genes and
reactions, plus a designated biomass reaction id (§3, §6).  Collections
are ordered association lists. -/
structure CBModel where
  id : String
  compartments : List (String × Compartment) := []
  metabolites : List (String × Metabolite) := []
  genes : List (String × Gene) := []
  reactions : List (String × CBReaction) := []
  biomass_reaction : Option String := none
deriving DecidableEq

/-- Modelled from the spec: ordered, uniquely-keyed insertion (§6) with
Python dictionary assignment semantics — assigning to an existing key
replaces the value in place, otherwise the entry is appended, preserving
insertion order. -/
def insertKeyed {κ β : Type} [DecidableEq κ] (k : κ) (v : β) :
    List (κ × β) → List (κ × β)
  | [] => [(k, v)]
  | (k', v') :: rest =>
      if k' = k then (k, v) :: rest else (k', v') :: insertKeyed k v rest

/-- Lookup by key in an ordered association list (Python `d[k]` /
`k in d`). -/
def lookupKey {κ β : Type} [DecidableEq κ] (k : κ) :
    List (κ × β) → Option β
  | [] => none
  | (k', v) :: rest => if k' = k then some v else lookupKey k rest

/-- Python membership test `k in d`. -/
def hasKey {κ β : Type} [DecidableEq κ] (k : κ) (l : List (κ × β)) : Bool :=
  (lookupKey k l).isSome

/-- The keys of an association list are pairwise distinct. -/
def keysNodup {κ β : Type} (l : List (κ × β)) : Prop :=
  (l.map Prod.fst).Nodup

/-- Exception-propagating fold, the translation of a Python `for` loop
whose body may raise: the first raised exception aborts the loop. -/
def foldE {σ α ε : Type} (f : σ → α → Except ε σ) (init : σ) :
    List α → Except ε σ
  | [] => Except.ok init
  | a :: t =>
      match f init a with
      | Except.error e => Except.error e
      | Except.ok s => foldE f s t

/-- Exception-propagating map, used to state the flat trace of reactions
built by the merge loop. -/
def mapE {α β ε : Type} (f : α → Except ε β) : List α → Except ε (List β)
  | [] => Except.ok []
  | a :: t =>
      match f a with
      | Except.error e => Except.error e
      | Except.ok b =>
          match mapE f t with
          | Except.error e => Except.error e
          | Except.ok bs => Except.ok (b :: bs)

/-- Replay a list of keyed writes onto an association list, one
`insertKeyed` per write (in order). -/
def applyW {κ β : Type} [DecidableEq κ] (l ws : List (κ × β)) :
    List (κ × β) :=
  ws.foldl (fun acc p => insertKeyed p.1 p.2 acc) l

/-- The value of the last write with the given key in a write list. -/
def lastWrite {κ β : Type} [DecidableEq κ] (k : κ) :
    List (κ × β) → Option β
  | [] => none
  | p :: t =>
      match lastWrite k t with
      | some v => some v
      | none => if p.1 = k then some p.2 else none

/-- Number of writes with the given key in a write list. -/
def countK {κ β : Type} [DecidableEq κ] (k : κ) (ws : List (κ × β)) : Nat :=
  (ws.filter (fun p => decide (p.1 = k))).length

/-- The community façade: an id and the ordered, uniquely-keyed organism
registry (`Community.__init__` stores the models in an ordered
dictionary keyed by model id). -/
structure Community where
  id : String
  organisms : List (String × CBModel)
deriving DecidableEq

/-- Translation of `Community.__init__`: stores each model under its id
with dictionary assignment semantics (a repeated id overwrites the
earlier entry), and warns when the set of model ids is smaller than the
model list.  The returned flag records whether the warning was emitted.
Deep-copying (`copy_models=True`) is the identity under value
semantics and is omitted. -/
def Community.build (community_id : String) (models : List CBModel) :
    Community × Bool :=
  (⟨community_id, models.foldl (fun d m => insertKeyed m.id m d) []⟩,
    decide ((models.map (fun m => m.id)).dedup.length < models.length))

/-- Translation of `Community.size`. -/
def Community.size (c : Community) : Nat :=
  c.organisms.length

/-- Default id of the shared external compartment (`ext_comp_id`). -/
def ext_comp_id : String := "ext"

/-- Default id of the community biomass metabolite (`biomass_id`). -/
def biomass_id : String := "community_biomass"

/-- Default id of the community growth reaction (`comm_growth`). -/
def comm_growth : String := "community_growth"

/-- The per-organism namespace renamer: `f"{old_id}_{org_id}"`. -/
def rename (org_id old_id : String) : String :=
  old_id ++ "_" ++ org_id

/-- The community growth reaction created up front by `merge_models`:
`CBReaction(comm_growth, name=..., reversible=False,
stoichiometry={biomass_id: -1}, lb=0, ub=inf, objective=1)`. -/
def growthRxn : CBReaction :=
  { id := comm_growth
    name := "Community growth rate"
    reversible := false
    stoichiometry := insertKeyed biomass_id (-1) []
    lb := Flt.val 0
    ub := Flt.posInf
    objective := 1 }

/-- State threaded through the merge loop: the merged model's four
collections plus the bookkeeping lists and provenance maps of
`merge_models`. -/
structure MergeState where
  compartments : List (String × Compartment)
  metabolites : List (String × Metabolite)
  genes : List (String × Gene)
  reactions : List (String × CBReaction)
  old_ext_comps : List String
  ext_mets : List String
  reaction_map : List ((String × String) × String)
  metabolite_map : List ((String × String) × String)

/-- Initial merge state: the shared external compartment, the community
biomass metabolite and the community growth reaction, created once
before the per-organism loop. -/
def initState : MergeState :=
  { compartments :=
      insertKeyed ext_comp_id
        ⟨ext_comp_id, "extracellular environment", true⟩ []
    metabolites :=
      insertKeyed biomass_id
        ⟨biomass_id, "Total community biomass", ext_comp_id, []⟩ []
    genes := []
    reactions := insertKeyed comm_growth growthRxn []
    old_ext_comps := []
    ext_mets := []
    reaction_map := []
    metabolite_map := [] }

/-- One iteration of the compartment loop: record the original id if the
compartment is external, then add a namespaced copy whose external flag
is not propagated. -/
def compStep (org_id : String)
    (st : List (String × Compartment) × List String)
    (p : String × Compartment) :
    List (String × Compartment) × List String :=
  let old_ext := if p.2.external then st.2 ++ [p.1] else st.2
  (insertKeyed (rename org_id p.1)
    ⟨rename org_id p.1, p.2.name, false⟩ st.1, old_ext)

/-- State of the metabolite loop: merged metabolites, the running
`ext_mets` list, and the metabolite provenance map. -/
abbrev MetSt :=
  List (String × Metabolite) × List String × List ((String × String) × String)

/-- One iteration of the metabolite loop: always add a namespaced private
copy and record it in the provenance map; then, if the model does not
yet contain a metabolite under the original id, add a pooled copy in the
shared external compartment and record the id in `ext_mets`. -/
def metStep (org_id : String) (st : MetSt) (p : String × Metabolite) :
    MetSt :=
  let new_id := rename org_id p.1
  let mets1 :=
    insertKeyed new_id
      ⟨new_id, p.2.name, rename org_id p.2.compartment, p.2.metadata⟩ st.1
  let mmap1 := insertKeyed (org_id, p.1) new_id st.2.2
  if hasKey p.1 mets1 then (mets1, st.2.1, mmap1)
  else
    (insertKeyed p.1 ⟨p.1, p.2.name, ext_comp_id, p.2.metadata⟩ mets1,
      st.2.1 ++ [p.1], mmap1)

/-- One iteration of the gene loop: add a namespaced copy with metadata
copied. -/
def geneStep (org_id : String) (gs : List (String × Gene))
    (p : String × Gene) : List (String × Gene) :=
  insertKeyed (rename org_id p.1)
    ⟨rename org_id p.1, p.2.name, p.2.metadata⟩ gs

/-- Build the merged reaction for one organism reaction
(`merge_models`, lines 105-155).  An exchange reaction becomes the
`_INT` transport reaction between the pooled metabolite (original id of
its first stoichiometry key, `list(rxn.stoichiometry.keys())[0]`: an
empty stoichiometry raises) and the namespaced private copy, always
reversible, exchange-typed, with constructor defaults for name, bounds
and objective.  Any other reaction keeps name, reversibility, bounds and
type, renames its stoichiometry entry-by-entry (the renamer is injective
for a fixed organism, so the dict comprehension keeps every entry), adds
`{biomass_id: 1}` when it is the designated biomass reaction, and
deep-rebuilds the GPR; the objective coefficient is not carried over.
In both branches the reaction metadata is copied from the original. -/
def buildOrgRxn (org_id : String) (biomass_reaction : Option String)
    (p : String × CBReaction) : Except String (String × CBReaction) :=
  if p.2.reaction_type = ReactionType.exchange then
    match p.2.stoichiometry with
    | [] => Except.error "list index out of range"
    | (m_id, _) :: _ =>
        let new_id := rename org_id p.1 ++ "_INT"
        Except.ok (new_id,
          { id := new_id
            reversible := true
            stoichiometry :=
              insertKeyed (rename org_id m_id) (-1) (insertKeyed m_id 1 [])
            lb := defaultLb true
            reaction_type := ReactionType.exchange
            metadata := p.2.metadata })
  else
    let new_id := rename org_id p.1
    let st0 := p.2.stoichiometry.map (fun q => (rename org_id q.1, q.2))
    let st1 :=
      if some p.1 = biomass_reaction then insertKeyed biomass_id 1 st0
      else st0
    let new_gpr :=
      p.2.gpr.map (fun g =>
        { proteins :=
            g.proteins.map (fun pr =>
              { genes := pr.genes.map (rename org_id)
                metadata := pr.metadata })
          metadata := g.metadata })
    Except.ok (new_id,
      { id := new_id
        name := p.2.name
        reversible := p.2.reversible
        stoichiometry := st1
        lb := p.2.lb
        ub := p.2.ub
        reaction_type := p.2.reaction_type
        gpr := new_gpr
        metadata := p.2.metadata })

/-- One iteration of the reaction loop: build the merged reaction, add it
to the merged model and record the provenance mapping. -/
def rxnStep (org_id : String) (biomass_reaction : Option String)
    (st : List (String × CBReaction) × List ((String × String) × String))
    (p : String × CBReaction) :
    Except String
      (List (String × CBReaction) × List ((String × String) × String)) :=
  match buildOrgRxn org_id biomass_reaction p with
  | Except.error e => Except.error e
  | Except.ok b =>
      Except.ok (insertKeyed b.1 b.2 st.1, insertKeyed (org_id, p.1) b.1 st.2)

/-- Process one organism of the registry: its compartment, metabolite,
gene and reaction loops, in source order. -/
def processOrg (s : MergeState) (org : String × CBModel) :
    Except String MergeState :=
  let cs := org.2.compartments.foldl (compStep org.1)
    (s.compartments, s.old_ext_comps)
  let ms := org.2.metabolites.foldl (metStep org.1)
    (s.metabolites, s.ext_mets, s.metabolite_map)
  let gs := org.2.genes.foldl (geneStep org.1) s.genes
  match foldE (rxnStep org.1 org.2.biomass_reaction)
      (s.reactions, s.reaction_map) org.2.reactions with
  | Except.error e => Except.error e
  | Except.ok rs =>
      Except.ok
        ⟨cs.1, ms.1, gs, rs.1, cs.2, ms.2.1, rs.2, ms.2.2⟩

/-- Python `m_id.startswith("M_")`, evaluated on the character lists. -/
def strStartsWith (s p : String) : Bool :=
  p.data.isPrefixOf s.data

/-- Python `m_id[2:]`: drop the first `n` characters. -/
def strDrop (s : String) (n : Nat) : String :=
  ⟨s.data.drop n⟩

/-- Community-level exchange reaction id and reaction for one pooled
external metabolite (`merge_models`, lines 159-167):
`R_EX_` followed by the id with its first two characters stripped when it
starts with `M_`, reversible, stoichiometry `{m_id: -1}`, exchange type,
constructor defaults otherwise. -/
def exchPair (m_id : String) : String × CBReaction :=
  let r_id :=
    if strStartsWith m_id "M_" then "R_EX_" ++ strDrop m_id 2
    else "R_EX_" ++ m_id
  (r_id,
    { id := r_id
      reversible := true
      stoichiometry := insertKeyed m_id (-1) []
      lb := defaultLb true
      reaction_type := ReactionType.exchange })

/-- Community-level exchange reaction id for a pooled metabolite id. -/
def exId (m_id : String) : String :=
  (exchPair m_id).1

/-- One iteration of the final exchange-reaction loop. -/
def exchStep (rs : List (String × CBReaction)) (m_id : String) :
    List (String × CBReaction) :=
  insertKeyed (exchPair m_id).1 (exchPair m_id).2 rs

/-- Result of a merge: the merged model and the two provenance maps. -/
structure MergeOut where
  model : CBModel
  reaction_map : List ((String × String) × String)
  metabolite_map : List ((String × String) × String)

/-- Translation of `Community.merge_models`: create the shared
compartment, biomass metabolite and growth reaction, process every
organism in registry order, then add one community-level exchange
reaction per recorded pooled metabolite. -/
def merge_models (c : Community) : Except String MergeOut :=
  match foldE processOrg initState c.organisms with
  | Except.error e => Except.error e
  | Except.ok s =>
      Except.ok
        ⟨⟨c.id, s.compartments, s.metabolites, s.genes,
            s.ext_mets.foldl exchStep s.reactions, none⟩,
          s.reaction_map, s.metabolite_map⟩

/-- Translation of the `Community.merged_model` property as a state
transformer on the cache field `_merged_model`: given the current cache,
return the model, the new cache, and whether the merge computation ran. -/
def merged_model_access (c : Community) (cache : Option CBModel) :
    Except String (CBModel × Option CBModel × Bool) :=
  match cache with
  | some m => Except.ok (m, some m, false)
  | none =>
      match merge_models c with
      | Except.error e => Except.error e
      | Except.ok out => Except.ok (out.model, some out.model, true)

/-- The metabolite-loop part of the merge, run over a list of organisms:
the merged metabolite collection, `ext_mets` and the metabolite
provenance map evolve independently of the other loops. -/
def metsRun (orgs : List (String × CBModel)) (st : MetSt) : MetSt :=
  orgs.foldl (fun st org => org.2.metabolites.foldl (metStep org.1) st) st

/-- Initial metabolite-loop state of a merge. -/
def initMetSt : MetSt :=
  (initState.metabolites, initState.ext_mets, initState.metabolite_map)

/-- The list of pooled external metabolite ids a merge of the given
community records (`ext_mets` at the end of the organism loop). -/
def extMetsOf (c : Community) : List String :=
  (metsRun c.organisms initMetSt).2.1

/-- The per-organism reaction trace: the merged reactions an organism
contributes, in loop order. -/
def orgRxnTrace (org : String × CBModel) :
    Except String (List (String × CBReaction)) :=
  mapE (buildOrgRxn org.1 org.2.biomass_reaction) org.2.reactions

/-- The full keyed write trace of the merged reaction collection: the
community growth reaction, then every organism's merged reactions in
registry order, then the community-level exchange reactions. -/
def rxnTrace (c : Community) :
    Except String (List (String × CBReaction)) :=
  match mapE orgRxnTrace c.organisms with
  | Except.error e => Except.error e
  | Except.ok parts =>
      Except.ok ((comm_growth, growthRxn) ::
        (parts.flatten ++ (extMetsOf c).map exchPair))

/-- Whether the merge of a community succeeds. -/
def mergeOk (c : Community) : Bool :=
  match merge_models c with
  | Except.ok _ => true
  | Except.error _ => false

/-- Whether the reaction write trace of a community contains exactly one
write with the given key — the spec's id-disjointness invariant (§3) for
that merged reaction id. -/
def uniqueRxnId (c : Community) (i : String) : Bool :=
  match rxnTrace c with
  | Except.ok ws => decide (countK i ws = 1)
  | Except.error _ => false

/-- First metabolite with the given id in an organism's ordered
metabolite collection. -/
def findMet (m : String) : List (String × Metabolite) → Option Metabolite
  | [] => none
  | p :: t => if p.1 = m then some p.2 else findMet m t

/-- The metabolite of the first organism (in registry order) introducing
the given original id. -/
def firstIntro (m : String) : List (String × CBModel) → Option Metabolite
  | [] => none
  | org :: t =>
      match findMet m org.2.metabolites with
      | some met => some met
      | none => firstIntro m t

/-! Generic lemmas about keyed insertion, lookup and write replay. -/

theorem lookup_insertKeyed_self {κ β : Type} [DecidableEq κ]
    (k : κ) (v : β) (l : List (κ × β)) :
    lookupKey k (insertKeyed k v l) = some v := by
  induction l with
  | nil => simp [insertKeyed, lookupKey]
  | cons p t ih =>
      by_cases h : p.1 = k
      · simp [insertKeyed, lookupKey, h]
      · simpa [insertKeyed, lookupKey, h] using ih

theorem lookup_insertKeyed_ne {κ β : Type} [DecidableEq κ]
    {k' k : κ} (v : β) (l : List (κ × β)) (h : k' ≠ k) :
    lookupKey k (insertKeyed k' v l) = lookupKey k l := by
  induction l with
  | nil => simp [insertKeyed, lookupKey, h]
  | cons p t ih =>
      by_cases hp : p.1 = k'
      · simp [insertKeyed, lookupKey, hp, h]
      · by_cases hk : p.1 = k
        · simp [insertKeyed, lookupKey, hp, hk, Ne.symm h]
        · simpa [insertKeyed, lookupKey, hp, hk] using ih

theorem mem_insertKeyed {κ β : Type} [DecidableEq κ]
    {k : κ} {v : β} {l : List (κ × β)} {p : κ × β}
    (h : p ∈ insertKeyed k v l) : p = (k, v) ∨ p ∈ l := by
  induction l with
  | nil => simpa [insertKeyed] using h
  | cons q t ih =>
      by_cases hq : q.1 = k
      · simp only [insertKeyed, if_pos hq, List.mem_cons] at h
        rcases h with h | h
        · exact Or.inl h
        · exact Or.inr (List.mem_cons_of_mem _ h)
      · simp only [insertKeyed, if_neg hq, List.mem_cons] at h
        rcases h with h | h
        · exact Or.inr (h ▸ List.mem_cons_self _ _)
        · rcases ih h with h' | h'
          · exact Or.inl h'
          · exact Or.inr (List.mem_cons_of_mem _ h')

theorem insertKeyed_of_hasKey_false {κ β : Type} [DecidableEq κ]
    {k : κ} (v : β) {l : List (κ × β)} (h : hasKey k l = false) :
    insertKeyed k v l = l ++ [(k, v)] := by
  induction l with
  | nil => simp [insertKeyed]
  | cons q t ih =>
      by_cases hq : q.1 = k
      · exfalso
        simp [hasKey, lookupKey, hq] at h
      · simp only [hasKey, lookupKey, if_neg hq] at h
        simp [insertKeyed, if_neg hq, ih h]

theorem mem_keys_insertKeyed {κ β : Type} [DecidableEq κ]
    {k a : κ} {v : β} {l : List (κ × β)}
    (h : a ∈ (insertKeyed k v l).map Prod.fst) :
    a = k ∨ a ∈ l.map Prod.fst := by
  rcases List.mem_map.mp h with ⟨p, hp, rfl⟩
  rcases mem_insertKeyed hp with h' | h'
  · exact Or.inl (by rw [h'])
  · exact Or.inr (List.mem_map_of_mem _ h')

theorem keysNodup_insertKeyed {κ β : Type} [DecidableEq κ]
    (k : κ) (v : β) {l : List (κ × β)} (h : keysNodup l) :
    keysNodup (insertKeyed k v l) := by
  induction l with
  | nil => simp [insertKeyed, keysNodup]
  | cons q t ih =>
      simp only [keysNodup, List.map_cons, List.nodup_cons] at h
      by_cases hq : q.1 = k
      · simp only [insertKeyed, if_pos hq, keysNodup, List.map_cons,
          List.nodup_cons]
        exact ⟨hq ▸ h.1, h.2⟩
      · simp only [insertKeyed, if_neg hq, keysNodup, List.map_cons,
          List.nodup_cons]
        refine ⟨fun hmem => ?_, ih h.2⟩
        rcases mem_keys_insertKeyed hmem with h' | h'
        · exact hq h'
        · exact h.1 h'

theorem hasKey_insertKeyed_mono {κ β : Type} [DecidableEq κ]
    {a k : κ} (v : β) {l : List (κ × β)} (h : hasKey a l = true) :
    hasKey a (insertKeyed k v l) = true := by
  by_cases hk : k = a
  · subst hk
    simp [hasKey, lookup_insertKeyed_self]
  · rw [hasKey, lookup_insertKeyed_ne v l hk]
    exact h

theorem hasKey_insertKeyed_self {κ β : Type} [DecidableEq κ]
    (k : κ) (v : β) (l : List (κ × β)) :
    hasKey k (insertKeyed k v l) = true := by
  simp [hasKey, lookup_insertKeyed_self]

theorem applyW_append {κ β : Type} [DecidableEq κ]
    (l ws ws' : List (κ × β)) :
    applyW l (ws ++ ws') = applyW (applyW l ws) ws' :=
  List.foldl_append _ _ _ _

theorem lookup_applyW {κ β : Type} [DecidableEq κ]
    (k : κ) (l ws : List (κ × β)) :
    lookupKey k (applyW l ws) =
      match lastWrite k ws with
      | some v => some v
      | none => lookupKey k l := by
  induction ws generalizing l with
  | nil => simp [applyW, lastWrite]
  | cons p t ih =>
      show lookupKey k (applyW (insertKeyed p.1 p.2 l) t) = _
      rw [ih]
      rcases hlw : lastWrite k t with _ | v
      · by_cases hp : p.1 = k
        · subst hp
          simp [lastWrite, hlw, lookup_insertKeyed_self]
        · simp [lastWrite, hlw, hp, lookup_insertKeyed_ne p.2 l hp]
      · simp [lastWrite, hlw]

theorem mem_applyW {κ β : Type} [DecidableEq κ]
    {l ws : List (κ × β)} {p : κ × β} (h : p ∈ applyW l ws) :
    p ∈ ws ∨ p ∈ l := by
  induction ws generalizing l with
  | nil => exact Or.inr h
  | cons q t ih =>
      rcases ih h with h' | h'
      · exact Or.inl (List.mem_cons_of_mem _ h')
      · rcases mem_insertKeyed h' with h'' | h''
        · exact Or.inl (h'' ▸ List.mem_cons_self _ _)
        · exact Or.inr h''

theorem keysNodup_applyW {κ β : Type} [DecidableEq κ]
    {l : List (κ × β)} (ws : List (κ × β)) (h : keysNodup l) :
    keysNodup (applyW l ws) := by
  induction ws generalizing l with
  | nil => exact h
  | cons p t ih => exact ih (keysNodup_insertKeyed p.1 p.2 h)

theorem lastWrite_of_countK_zero {κ β : Type} [DecidableEq κ]
    {k : κ} {ws : List (κ × β)} (h : countK k ws = 0) :
    lastWrite k ws = none := by
  induction ws with
  | nil => rfl
  | cons p t ih =>
      by_cases hp : p.1 = k
      · exfalso
        simp [countK, List.filter, hp] at h
      · have h' : countK k t = 0 := by
          simpa [countK, List.filter, hp] using h
        simp [lastWrite, ih h', hp]

theorem countK_pos_of_mem {κ β : Type} [DecidableEq κ]
    {k : κ} {v : β} {ws : List (κ × β)} (h : (k, v) ∈ ws) :
    0 < countK k ws := by
  induction ws with
  | nil => cases h
  | cons p t ih =>
      rcases List.mem_cons.mp h with h' | h'
      · subst h'
        simp [countK, List.filter]
      · by_cases hp : p.1 = k
        · simp [countK, List.filter, hp]
        · simpa [countK, List.filter, hp] using ih h'

theorem lastWrite_of_unique {κ β : Type} [DecidableEq κ]
    {k : κ} {v : β} {ws : List (κ × β)}
    (hmem : (k, v) ∈ ws) (hc : countK k ws = 1) :
    lastWrite k ws = some v := by
  induction ws with
  | nil => cases hmem
  | cons p t ih =>
      by_cases hp : p.1 = k
      · have htz : countK k t = 0 := by
          simp only [countK, List.filter, hp, decide_True] at hc
          simpa [countK] using Nat.succ_injective hc
        rcases List.mem_cons.mp hmem with h' | h'
        · rw [lastWrite, lastWrite_of_countK_zero htz]
          simp [hp, ← h']
        · exact absurd htz (by
            have := countK_pos_of_mem h'
            omega)
      · have hmem' : (k, v) ∈ t := by
          rcases List.mem_cons.mp hmem with h' | h'
          · exact absurd (congrArg Prod.fst h'.symm) hp
          · exact h'
        have hct : countK k t = 1 := by
          simpa [countK, List.filter, hp] using hc
        rw [lastWrite, ih hmem' hct]

theorem countK_eq_one_of_nodup {κ β : Type} [DecidableEq κ]
    {k : κ} {v : β} {l : List (κ × β)}
    (hnd : keysNodup l) (h : lookupKey k l = some v) :
    countK k l = 1 := by
  induction l with
  | nil => cases h
  | cons p t ih =>
      simp only [keysNodup, List.map_cons, List.nodup_cons] at hnd
      by_cases hp : p.1 = k
      · have : countK k t = 0 := by
          rw [countK, List.length_eq_zero, List.filter_eq_nil_iff]
          intro q hq hdec
          exact hnd.1 (hp ▸ (of_decide_eq_true hdec) ▸
            List.mem_map_of_mem Prod.fst hq)
        simp [countK, List.filter, hp, ← Nat.succ_eq_add_one]
        simpa [countK] using this
      · rw [lookupKey, if_neg hp] at h
        simpa [countK, List.filter, hp] using ih hnd.2 h

/-! Lemmas about the exception-propagating fold and map. -/

theorem mapE_ok_mem {α β ε : Type} {f : α → Except ε β}
    {l : List α} {bs : List β} (h : mapE f l = Except.ok bs)
    {a : α} (ha : a ∈ l) : ∃ b, f a = Except.ok b ∧ b ∈ bs := by
  induction l generalizing bs with
  | nil => cases ha
  | cons x t ih =>
      rw [mapE] at h
      rcases hx : f x with e | b
      · rw [hx] at h
        cases h
      · rw [hx] at h
        rcases ht : mapE f t with e | bs'
        · rw [ht] at h
          cases h
        · rw [ht] at h
          cases h
          rcases List.mem_cons.mp ha with rfl | ha'
          · exact ⟨b, hx, List.mem_cons_self _ _⟩
          · rcases ih ht ha' with ⟨b', hb', hmem⟩
            exact ⟨b', hb', List.mem_cons_of_mem _ hmem⟩

theorem mapE_ok_mem_rev {α β ε : Type} {f : α → Except ε β}
    {l : List α} {bs : List β} (h : mapE f l = Except.ok bs)
    {b : β} (hb : b ∈ bs) : ∃ a, a ∈ l ∧ f a = Except.ok b := by
  induction l generalizing bs with
  | nil =>
      rw [mapE] at h
      cases h
      cases hb
  | cons x t ih =>
      rw [mapE] at h
      rcases hx : f x with e | b'
      · rw [hx] at h
        cases h
      · rw [hx] at h
        rcases ht : mapE f t with e | bs'
        · rw [ht] at h
          cases h
        · rw [ht] at h
          cases h
          rcases List.mem_cons.mp hb with rfl | hb'
          · exact ⟨x, List.mem_cons_self _ _, hx⟩
          · rcases ih ht hb' with ⟨a, ha, hfa⟩
            exact ⟨a, List.mem_cons_of_mem _ ha, hfa⟩

theorem mapE_error_of_mem {α β ε : Type} {f : α → Except ε β}
    {l : List α} {a : α} {e₀ : ε} (ha : a ∈ l)
    (hf : f a = Except.error e₀) : ∃ e, mapE f l = Except.error e := by
  induction l with
  | nil => cases ha
  | cons x t ih =>
      rcases hx : f x with e | b
      · exact ⟨e, by rw [mapE, hx]⟩
      · rcases List.mem_cons.mp ha with rfl | ha'
        · rw [hx] at hf
          cases hf
        · rcases ih ha' with ⟨e, he⟩
          exact ⟨e, by rw [mapE, hx, he]⟩

theorem foldE_error_of_mem {σ α ε : Type} {f : σ → α → Except ε σ}
    {l : List α} {a : α} (ha : a ∈ l)
    (hf : ∀ s, ∃ e, f s a = Except.error e) :
    ∀ s, ∃ e, foldE f s l = Except.error e := by
  induction l with
  | nil => cases ha
  | cons x t ih =>
      intro s
      rcases hx : f s x with e | s'
      · exact ⟨e, by rw [foldE, hx]⟩
      · rcases List.mem_cons.mp ha with rfl | ha'
        · rcases hf s with ⟨e, he⟩
          rw [hx] at he
          cases he
        · rcases ih ha' s' with ⟨e, he⟩
          exact ⟨e, by rw [foldE, hx]; exact he⟩

/-! Relating the reaction loop to the flat write trace. -/

theorem foldE_rxnStep_ok {o : String} {b : Option String}
    {rs : List (String × CBReaction)}
    {st : List (String × CBReaction) × List ((String × String) × String)}
    {rp : List (String × CBReaction) × List ((String × String) × String)}
    (h : foldE (rxnStep o b) st rs = Except.ok rp) :
    ∃ ws, mapE (buildOrgRxn o b) rs = Except.ok ws ∧
      rp.1 = applyW st.1 ws := by
  induction rs generalizing st with
  | nil =>
      rw [foldE] at h
      cases h
      exact ⟨[], rfl, rfl⟩
  | cons p t ih =>
      rw [foldE] at h
      rcases hb : rxnStep o b st p with e | st₁
      · rw [hb] at h
        cases h
      · rw [hb] at h
        rcases hbr : buildOrgRxn o b p with e | pr
        · rw [rxnStep, hbr] at hb
          cases hb
        · rw [rxnStep, hbr] at hb
          cases hb
          rcases ih h with ⟨ws, hws, hrp⟩
          refine ⟨pr :: ws, ?_, ?_⟩
          · rw [mapE, hbr, hws]
          · rw [hrp]
            rfl

theorem foldE_rxnStep_error {o : String} {b : Option String}
    {rs : List (String × CBReaction)} {e₀ : String}
    {st : List (String × CBReaction) × List ((String × String) × String)}
    (h : foldE (rxnStep o b) st rs = Except.error e₀) :
    ∃ e, mapE (buildOrgRxn o b) rs = Except.error e := by
  induction rs generalizing st with
  | nil =>
      rw [foldE] at h
      cases h
  | cons p t ih =>
      rw [foldE] at h
      rcases hb : rxnStep o b st p with e | st₁
      · rcases hbr : buildOrgRxn o b p with e' | pr
        · exact ⟨e', by rw [mapE, hbr]⟩
        · rw [rxnStep, hbr] at hb
          cases hb
      · rw [hb] at h
        rcases ih h with ⟨e, he⟩
        rcases hbr : buildOrgRxn o b p with e' | pr
        · rw [rxnStep, hbr] at hb
          cases hb
        · exact ⟨e, by rw [mapE, hbr, he]⟩

theorem foldl_exchStep (l : List String) (rs : List (String × CBReaction)) :
    l.foldl exchStep rs = applyW rs (l.map exchPair) := by
  induction l generalizing rs with
  | nil => rfl
  | cons m t ih =>
      show t.foldl exchStep (exchStep rs m) = _
      rw [ih]
      rfl

theorem processOrgs_ok :
    ∀ (orgs : List (String × CBModel)) (s s' : MergeState),
    foldE processOrg s orgs = Except.ok s' →
    ∃ parts, mapE orgRxnTrace orgs = Except.ok parts ∧
      s'.reactions = applyW s.reactions parts.flatten ∧
      s'.metabolites =
        (metsRun orgs (s.metabolites, s.ext_mets, s.metabolite_map)).1 ∧
      s'.ext_mets =
        (metsRun orgs (s.metabolites, s.ext_mets, s.metabolite_map)).2.1 := by
  intro orgs
  induction orgs with
  | nil =>
      intro s s' h
      rw [foldE] at h
      cases h
      exact ⟨[], rfl, rfl, rfl, rfl⟩
  | cons org t ih =>
      intro s s' h
      rw [foldE] at h
      rcases hpo : processOrg s org with e | s₁
      · rw [hpo] at h
        cases h
      · rw [hpo] at h
        simp only [processOrg] at hpo
        rcases hr : foldE (rxnStep org.1 org.2.biomass_reaction)
            (s.reactions, s.reaction_map) org.2.reactions with e | rp
        · rw [hr] at hpo
          cases hpo
        · rw [hr] at hpo
          injection hpo with hpo
          subst hpo
          rcases foldE_rxnStep_ok hr with ⟨ws₀, hws₀, hrp⟩
          rcases ih _ _ h with ⟨parts', hparts', hrxn', hmets', hext'⟩
          refine ⟨ws₀ :: parts', ?_, ?_, ?_, ?_⟩
          · rw [mapE]
            rw [show orgRxnTrace org = Except.ok ws₀ from hws₀, hparts']
          · rw [hrxn']
            show applyW rp.1 parts'.flatten = _
            rw [hrp, List.flatten, ← applyW_append]
          · rw [hmets']
            rfl
          · rw [hext']
            rfl

theorem merge_ok_spec {c : Community} {out : MergeOut}
    (hm : merge_models c = Except.ok out) :
    ∃ ws, rxnTrace c = Except.ok ws ∧
      out.model.reactions = applyW [] ws ∧
      out.model.metabolites = (metsRun c.organisms initMetSt).1 := by
  rw [merge_models] at hm
  rcases hf : foldE processOrg initState c.organisms with e | s
  · rw [hf] at hm
    cases hm
  · rw [hf] at hm
    injection hm with hm
    subst hm
    rcases processOrgs_ok _ _ _ hf with ⟨parts, hparts, hrxn, hmets, hext⟩
    refine ⟨(comm_growth, growthRxn) ::
      (parts.flatten ++ (extMetsOf c).map exchPair), ?_, ?_, ?_⟩
    · rw [rxnTrace, hparts]
    · show s.ext_mets.foldl exchStep s.reactions = _
      rw [foldl_exchStep, hrxn, hext]
      show _ = applyW (insertKeyed comm_growth growthRxn [])
        (parts.flatten ++ (extMetsOf c).map exchPair)
      rw [applyW_append]
      rfl
    · exact hmets

theorem merge_error_spec {c : Community} {o : String} {mdl : CBModel}
    {r : String} {rxn : CBReaction}
    (ho : (o, mdl) ∈ c.organisms) (hr : (r, rxn) ∈ mdl.reactions)
    (hx : rxn.reaction_type = ReactionType.exchange)
    (hs : rxn.stoichiometry = []) :
    ∃ e, merge_models c = Except.error e := by
  have hbad : buildOrgRxn o mdl.biomass_reaction (r, rxn) =
      Except.error "list index out of range" := by
    rw [buildOrgRxn]
    rw [if_pos hx, hs]
  have hstep : ∀ st, ∃ e, rxnStep o mdl.biomass_reaction st (r, rxn) =
      Except.error e :=
    fun st => ⟨"list index out of range", by rw [rxnStep, hbad]⟩
  have hproc : ∀ s, ∃ e, processOrg s (o, mdl) = Except.error e := by
    intro s
    rcases foldE_error_of_mem hr hstep (s.reactions, s.reaction_map)
      with ⟨e, he⟩
    exact ⟨e, by simp only [processOrg]; rw [he]⟩
  rcases foldE_error_of_mem ho hproc initState with ⟨e, he⟩
  exact ⟨e, by rw [merge_models, he]⟩

theorem mergeOk_exists {c : Community} (h : mergeOk c = true) :
    ∃ out, merge_models c = Except.ok out := by
  rw [mergeOk] at h
  rcases hm : merge_models c with e | out
  · rw [hm] at h
    cases h
  · exact ⟨out, rfl⟩

theorem uniqueRxnId_spec {c : Community} {i : String}
    {ws : List (String × CBReaction)}
    (h : uniqueRxnId c i = true) (hws : rxnTrace c = Except.ok ws) :
    countK i ws = 1 := by
  rw [uniqueRxnId, hws] at h
  exact of_decide_eq_true h

theorem rxnTrace_parts {c : Community} {ws : List (String × CBReaction)}
    (h : rxnTrace c = Except.ok ws) :
    ∃ parts, mapE orgRxnTrace c.organisms = Except.ok parts ∧
      ws = (comm_growth, growthRxn) ::
        (parts.flatten ++ (extMetsOf c).map exchPair) := by
  rw [rxnTrace] at h
  rcases hp : mapE orgRxnTrace c.organisms with e | parts
  · rw [hp] at h
    cases h
  · rw [hp] at h
    injection h with h
    exact ⟨parts, rfl, h.symm⟩

theorem lookup_merged_built {c : Community} {out : MergeOut}
    {o : String} {mdl : CBModel} {r_id : String} {rxn : CBReaction}
    {i : String} {nr : CBReaction} {ws : List (String × CBReaction)}
    (hm : merge_models c = Except.ok out)
    (htr : rxnTrace c = Except.ok ws)
    (ho : (o, mdl) ∈ c.organisms) (hr : (r_id, rxn) ∈ mdl.reactions)
    (hb : buildOrgRxn o mdl.biomass_reaction (r_id, rxn) = Except.ok (i, nr))
    (hc : countK i ws = 1) :
    lookupKey i out.model.reactions = some nr := by
  rcases merge_ok_spec hm with ⟨ws', htr', hrxn, _⟩
  rw [htr] at htr'
  injection htr' with htr'
  subst htr'
  rcases rxnTrace_parts htr with ⟨parts, hparts, hws⟩
  rcases mapE_ok_mem hparts ho with ⟨wsₒ, hwsₒ, hmemₒ⟩
  rcases mapE_ok_mem hwsₒ hr with ⟨b, hb', hmemb⟩
  rw [hb] at hb'
  injection hb' with hb'
  subst hb'
  have hmem : (i, nr) ∈ ws := by
    rw [hws]
    exact List.mem_cons_of_mem _
      (List.mem_append_left _ (List.mem_flatten.mpr ⟨wsₒ, hmemₒ, hmemb⟩))
  rw [hrxn, lookup_applyW, lastWrite_of_unique hmem hc]

/-! String facts about the namespace renamer. -/

theorem rename_ne (o m : String) : rename o m ≠ m := by
  intro h
  have h' := congrArg String.length h
  rw [rename, String.length_append, String.length_append] at h'
  have h1 : "_".length = 1 := rfl
  omega

theorem rename_ne_ext (o x : String) : rename o x ≠ ext_comp_id := by
  intro h
  have hu : '_' ∈ (rename o x).data := by
    rw [rename, String.data_append, String.data_append]
    exact List.mem_append_left _
      (List.mem_append_right _ (by decide))
  rw [h] at hu
  exact absurd hu (by decide)

/-! The metabolite loop: lookup characterization and key uniqueness. -/

theorem metFold_lookup (o m : String) :
    ∀ (ml : List (String × Metabolite)) (st : MetSt),
    (∀ q ∈ ml, rename o q.1 ≠ m) →
    lookupKey m (ml.foldl (metStep o) st).1 =
      match lookupKey m st.1 with
      | some v => some v
      | none =>
          (findMet m ml).map
            (fun met => ⟨m, met.name, ext_comp_id, met.metadata⟩) := by
  intro ml
  induction ml with
  | nil =>
      intro st _
      rcases hl : lookupKey m st.1 with _ | v <;> simp [findMet, hl]
  | cons q t ih =>
      intro st hns
      have hq : rename o q.1 ≠ m := hns q (List.mem_cons_self _ _)
      have hns' : ∀ r ∈ t, rename o r.1 ≠ m :=
        fun r hr => hns r (List.mem_cons_of_mem _ hr)
      show lookupKey m ((t.foldl (metStep o) (metStep o st q))).1 = _
      rw [ih (metStep o st q) hns']
      rcases hhk : hasKey q.1
          (insertKeyed (rename o q.1)
            ⟨rename o q.1, q.2.name, rename o q.2.compartment, q.2.metadata⟩
            st.1) with _ | _
      · by_cases hqm : q.1 = m
        · subst hqm
          have hnone : lookupKey q.1 st.1 = none := by
            rw [hasKey, lookup_insertKeyed_ne _ _ hq] at hhk
            rcases hl : lookupKey q.1 st.1 with _ | v
            · rfl
            · rw [hl] at hhk
              cases hhk
          have hst₁ : (metStep o st q).1 =
              insertKeyed q.1 ⟨q.1, q.2.name, ext_comp_id, q.2.metadata⟩
                (insertKeyed (rename o q.1)
                  ⟨rename o q.1, q.2.name, rename o q.2.compartment,
                    q.2.metadata⟩ st.1) := by
            rw [metStep]
            simp only [hhk, Bool.false_eq_true, if_false]
          rw [hst₁, lookup_insertKeyed_self, hnone]
          simp [findMet]
        · have hst₁ : (metStep o st q).1 =
              insertKeyed q.1 ⟨q.1, q.2.name, ext_comp_id, q.2.metadata⟩
                (insertKeyed (rename o q.1)
                  ⟨rename o q.1, q.2.name, rename o q.2.compartment,
                    q.2.metadata⟩ st.1) := by
            rw [metStep]
            simp only [hhk, Bool.false_eq_true, if_false]
          rw [hst₁, lookup_insertKeyed_ne _ _ hqm,
            lookup_insertKeyed_ne _ _ hq]
          rcases hl : lookupKey m st.1 with _ | v
          · simp [findMet, hqm]
          · simp
      · have hst₁ : (metStep o st q).1 =
            insertKeyed (rename o q.1)
              ⟨rename o q.1, q.2.name, rename o q.2.compartment,
                q.2.metadata⟩ st.1 := by
          rw [metStep]
          simp only [hhk, if_true]
        rw [hst₁, lookup_insertKeyed_ne _ _ hq]
        rcases hl : lookupKey m st.1 with _ | v
        · have hqm : q.1 ≠ m := by
            intro hqm
            rw [hqm, hasKey,
              lookup_insertKeyed_ne _ _ (rename_ne o m), hl] at hhk
            cases hhk
          simp [findMet, hqm]
        · simp

theorem metsRun_lookup (m : String) :
    ∀ (orgs : List (String × CBModel)) (st : MetSt),
    (∀ org ∈ orgs, ∀ q ∈ org.2.metabolites, rename org.1 q.1 ≠ m) →
    lookupKey m (metsRun orgs st).1 =
      match lookupKey m st.1 with
      | some v => some v
      | none =>
          (firstIntro m orgs).map
            (fun met => ⟨m, met.name, ext_comp_id, met.metadata⟩) := by
  intro orgs
  induction orgs with
  | nil =>
      intro st _
      rcases hl : lookupKey m st.1 with _ | v <;>
        simp [metsRun, firstIntro, hl]
  | cons org t ih =>
      intro st hns
      have hno : ∀ q ∈ org.2.metabolites, rename org.1 q.1 ≠ m :=
        hns org (List.mem_cons_self _ _)
      have hns' : ∀ org' ∈ t, ∀ q ∈ org'.2.metabolites,
          rename org'.1 q.1 ≠ m :=
        fun org' h' => hns org' (List.mem_cons_of_mem _ h')
      show lookupKey m
        ((metsRun t (org.2.metabolites.foldl (metStep org.1) st))).1 = _
      rw [ih _ hns', metFold_lookup org.1 m _ st hno]
      rcases hl : lookupKey m st.1 with _ | v
      · rcases hf : findMet m org.2.metabolites with _ | met
        · simp [firstIntro, hf]
        · simp [firstIntro, hf]
      · simp [firstIntro]

theorem keysNodup_metStep (o : String) (st : MetSt)
    (q : String × Metabolite) (h : keysNodup st.1) :
    keysNodup (metStep o st q).1 := by
  rw [metStep]
  rcases hhk : hasKey q.1
      (insertKeyed (rename o q.1)
        ⟨rename o q.1, q.2.name, rename o q.2.compartment, q.2.metadata⟩
        st.1) with _ | _
  · simp only [hhk, Bool.false_eq_true, if_false]
    exact keysNodup_insertKeyed _ _ (keysNodup_insertKeyed _ _ h)
  · simp only [hhk, if_true]
    exact keysNodup_insertKeyed _ _ h

theorem keysNodup_metFold (o : String) :
    ∀ (ml : List (String × Metabolite)) (st : MetSt),
    keysNodup st.1 → keysNodup ((ml.foldl (metStep o) st)).1 := by
  intro ml
  induction ml with
  | nil => exact fun st h => h
  | cons q t ih =>
      intro st h
      exact ih (metStep o st q) (keysNodup_metStep o st q h)

theorem keysNodup_metsRun :
    ∀ (orgs : List (String × CBModel)) (st : MetSt),
    keysNodup st.1 → keysNodup (metsRun orgs st).1 := by
  intro orgs
  induction orgs with
  | nil => exact fun st h => h
  | cons org t ih =>
      intro st h
      exact ih _ (keysNodup_metFold org.1 _ st h)

/-! The metabolite loop: pooling suppression and ext-list facts. -/

theorem hasKey_metStep_mono (o : String) (st : MetSt)
    (q : String × Metabolite) {x : String} (h : hasKey x st.1 = true) :
    hasKey x (metStep o st q).1 = true := by
  rw [metStep]
  rcases hhk : hasKey q.1
      (insertKeyed (rename o q.1)
        ⟨rename o q.1, q.2.name, rename o q.2.compartment, q.2.metadata⟩
        st.1) with _ | _
  · simp only [hhk, Bool.false_eq_true, if_false]
    exact hasKey_insertKeyed_mono _ (hasKey_insertKeyed_mono _ h)
  · simp only [hhk, if_true]
    exact hasKey_insertKeyed_mono _ h

theorem metStep_blocked (o : String) (st : MetSt)
    (q : String × Metabolite) {m : String} (h : hasKey m st.1 = true) :
    (m ∈ (metStep o st q).2.1) ↔ m ∈ st.2.1 := by
  rw [metStep]
  rcases hhk : hasKey q.1
      (insertKeyed (rename o q.1)
        ⟨rename o q.1, q.2.name, rename o q.2.compartment, q.2.metadata⟩
        st.1) with _ | _
  · simp only [hhk, Bool.false_eq_true, if_false]
    have hqm : q.1 ≠ m := by
      intro hqm
      rw [hqm, hasKey_insertKeyed_mono _ h] at hhk
      cases hhk
    constructor
    · intro hm
      rcases List.mem_append.mp hm with hm | hm
      · exact hm
      · exact absurd (List.mem_singleton.mp hm) (Ne.symm hqm)
    · exact fun hm => List.mem_append_left _ hm
  · simp only [hhk, if_true]

theorem metFold_blocked (o : String) {m : String} :
    ∀ (ml : List (String × Metabolite)) (st : MetSt),
    hasKey m st.1 = true →
    hasKey m ((ml.foldl (metStep o) st)).1 = true ∧
      ((m ∈ ((ml.foldl (metStep o) st)).2.1) ↔ m ∈ st.2.1) := by
  intro ml
  induction ml with
  | nil => exact fun st h => ⟨h, Iff.rfl⟩
  | cons q t ih =>
      intro st h
      have h₁ := hasKey_metStep_mono o st q h
      rcases ih (metStep o st q) h₁ with ⟨h₂, h₃⟩
      exact ⟨h₂, h₃.trans (metStep_blocked o st q h)⟩

theorem metsRun_blocked {m : String} :
    ∀ (orgs : List (String × CBModel)) (st : MetSt),
    hasKey m st.1 = true →
    hasKey m (metsRun orgs st).1 = true ∧
      ((m ∈ (metsRun orgs st).2.1) ↔ m ∈ st.2.1) := by
  intro orgs
  induction orgs with
  | nil => exact fun st h => ⟨h, Iff.rfl⟩
  | cons org t ih =>
      intro st h
      rcases metFold_blocked org.1 org.2.metabolites st h with ⟨h₁, h₂⟩
      rcases ih (org.2.metabolites.foldl (metStep org.1) st) h₁
        with ⟨h₃, h₄⟩
      exact ⟨h₃, h₄.trans h₂⟩

theorem metFold_hasKey_of_mem (o : String) {k : String} {met : Metabolite} :
    ∀ (ml : List (String × Metabolite)) (st : MetSt),
    (k, met) ∈ ml →
    hasKey (rename o k) ((ml.foldl (metStep o) st)).1 = true := by
  intro ml
  induction ml with
  | nil => exact fun st h => absurd h (List.not_mem_nil _)
  | cons q t ih =>
      intro st hmem
      rcases List.mem_cons.mp hmem with rfl | hmem'
      · have h₁ : hasKey (rename o k) (metStep o st (k, met)).1 = true := by
          rw [metStep]
          rcases hhk : hasKey k
              (insertKeyed (rename o k)
                ⟨rename o k, met.name, rename o met.compartment,
                  met.metadata⟩ st.1) with _ | _
          · simp only [hhk, Bool.false_eq_true, if_false]
            exact hasKey_insertKeyed_mono _ (hasKey_insertKeyed_self _ _ _)
          · simp only [hhk, if_true]
            exact hasKey_insertKeyed_self _ _ _
        exact (metFold_blocked o t (metStep o st (k, met)) h₁).1
      · exact ih (metStep o st q) hmem'

theorem metFold_ext_no_new (o : String) {m : String} :
    ∀ (ml : List (String × Metabolite)) (st : MetSt),
    (∀ q ∈ ml, q.1 ≠ m) → m ∉ st.2.1 →
    m ∉ ((ml.foldl (metStep o) st)).2.1 := by
  intro ml
  induction ml with
  | nil => exact fun st _ h => h
  | cons q t ih =>
      intro st hq hm
      refine ih (metStep o st q)
        (fun r hr => hq r (List.mem_cons_of_mem _ hr)) ?_
      rw [metStep]
      rcases hhk : hasKey q.1
          (insertKeyed (rename o q.1)
            ⟨rename o q.1, q.2.name, rename o q.2.compartment,
              q.2.metadata⟩ st.1) with _ | _
      · simp only [hhk, Bool.false_eq_true, if_false]
        intro hmem
        rcases List.mem_append.mp hmem with h | h
        · exact hm h
        · exact hq q (List.mem_cons_self _ _) (List.mem_singleton.mp h).symm
      · simp only [hhk, if_true]
        exact hm

theorem metsRun_ext_no_new {m : String} :
    ∀ (orgs : List (String × CBModel)) (st : MetSt),
    (∀ org ∈ orgs, ∀ q ∈ org.2.metabolites, q.1 ≠ m) → m ∉ st.2.1 →
    m ∉ (metsRun orgs st).2.1 := by
  intro orgs
  induction orgs with
  | nil => exact fun st _ h => h
  | cons org t ih =>
      intro st hq hm
      exact ih _
        (fun org' h' => hq org' (List.mem_cons_of_mem _ h'))
        (metFold_ext_no_new org.1 org.2.metabolites st
          (hq org (List.mem_cons_self _ _)) hm)

theorem ext_mono_metStep (o : String) (st : MetSt)
    (q : String × Metabolite) : st.2.1 ⊆ (metStep o st q).2.1 := by
  rw [metStep]
  rcases hhk : hasKey q.1
      (insertKeyed (rename o q.1)
        ⟨rename o q.1, q.2.name, rename o q.2.compartment, q.2.metadata⟩
        st.1) with _ | _
  · simp only [hhk, Bool.false_eq_true, if_false]
    exact List.subset_append_left _ _
  · simp only [hhk, if_true]
    exact fun x h => h

theorem ext_mono_metFold (o : String) :
    ∀ (ml : List (String × Metabolite)) (st : MetSt),
    st.2.1 ⊆ ((ml.foldl (metStep o) st)).2.1 := by
  intro ml
  induction ml with
  | nil => exact fun st => fun x h => h
  | cons q t ih =>
      intro st
      exact fun x h => ih (metStep o st q) (ext_mono_metStep o st q h)

theorem metFold_mem (o : String) :
    ∀ (ml : List (String × Metabolite)) (st : MetSt)
      (p : String × Metabolite), p ∈ ((ml.foldl (metStep o) st)).1 →
    p ∈ st.1 ∨
      (∃ q ∈ ml, p = (rename o q.1,
        ⟨rename o q.1, q.2.name, rename o q.2.compartment,
          q.2.metadata⟩)) ∨
      p.1 ∈ ((ml.foldl (metStep o) st)).2.1 := by
  intro ml
  induction ml with
  | nil => exact fun st p h => Or.inl h
  | cons q t ih =>
      intro st p h
      rcases ih (metStep o st q) p h with h' | h' | h'
      · have hstep : p ∈ (metStep o st q).1 → p ∈ st.1 ∨
            p = (rename o q.1, ⟨rename o q.1, q.2.name,
              rename o q.2.compartment, q.2.metadata⟩) ∨
            p.1 ∈ (metStep o st q).2.1 := by
          rw [metStep]
          rcases hhk : hasKey q.1
              (insertKeyed (rename o q.1)
                ⟨rename o q.1, q.2.name, rename o q.2.compartment,
                  q.2.metadata⟩ st.1) with _ | _
          · simp only [hhk, Bool.false_eq_true, if_false]
            intro hp
            rcases mem_insertKeyed hp with hp' | hp'
            · refine Or.inr (Or.inr ?_)
              rw [hp']
              exact List.mem_append_right _ (List.mem_singleton.mpr rfl)
            · rcases mem_insertKeyed hp' with hp'' | hp''
              · exact Or.inr (Or.inl hp'')
              · exact Or.inl hp''
          · simp only [hhk, if_true]
            intro hp
            rcases mem_insertKeyed hp with hp' | hp'
            · exact Or.inr (Or.inl hp')
            · exact Or.inl hp'
        rcases hstep h' with h'' | h'' | h''
        · exact Or.inl h''
        · exact Or.inr (Or.inl ⟨q, List.mem_cons_self _ _, h''⟩)
        · exact Or.inr (Or.inr (ext_mono_metFold o t (metStep o st q) h''))
      · rcases h' with ⟨r, hr, hp⟩
        exact Or.inr (Or.inl ⟨r, List.mem_cons_of_mem _ hr, hp⟩)
      · exact Or.inr (Or.inr h')

theorem ext_mono_metsRun :
    ∀ (orgs : List (String × CBModel)) (st : MetSt),
    st.2.1 ⊆ (metsRun orgs st).2.1 := by
  intro orgs
  induction orgs with
  | nil => exact fun st => fun x h => h
  | cons org t ih =>
      intro st x hx
      exact ih _ (ext_mono_metFold org.1 org.2.metabolites st hx)

theorem metsRun_mem :
    ∀ (orgs : List (String × CBModel)) (st : MetSt)
      (p : String × Metabolite), p ∈ (metsRun orgs st).1 →
    p ∈ st.1 ∨
      (∃ org ∈ orgs, ∃ q ∈ org.2.metabolites,
        p = (rename org.1 q.1, ⟨rename org.1 q.1, q.2.name,
          rename org.1 q.2.compartment, q.2.metadata⟩)) ∨
      p.1 ∈ (metsRun orgs st).2.1 := by
  intro orgs
  induction orgs with
  | nil => exact fun st p h => Or.inl h
  | cons org t ih =>
      intro st p h
      rcases ih (org.2.metabolites.foldl (metStep org.1) st) p h
        with h' | h' | h'
      · rcases metFold_mem org.1 org.2.metabolites st p h'
          with h'' | h'' | h''
        · exact Or.inl h''
        · rcases h'' with ⟨q, hq, hp⟩
          exact Or.inr (Or.inl ⟨org, List.mem_cons_self _ _, q, hq, hp⟩)
        · exact Or.inr (Or.inr (ext_mono_metsRun t
            (org.2.metabolites.foldl (metStep org.1) st) h''))
      · rcases h' with ⟨org', horg', hq⟩
        exact Or.inr (Or.inl ⟨org', List.mem_cons_of_mem _ horg', hq⟩)
      · exact Or.inr (Or.inr h')

/-! Computation lemmas for the built reactions. -/

theorem buildOrgRxn_eq_nonexchange {o : String} {b : Option String}
    {r : String} {rxn : CBReaction}
    (hx : rxn.reaction_type ≠ ReactionType.exchange) :
    buildOrgRxn o b (r, rxn) = Except.ok (rename o r,
      { id := rename o r
        name := rxn.name
        reversible := rxn.reversible
        stoichiometry :=
          if some r = b then
            insertKeyed biomass_id 1
              (rxn.stoichiometry.map (fun q => (rename o q.1, q.2)))
          else rxn.stoichiometry.map (fun q => (rename o q.1, q.2))
        lb := rxn.lb
        ub := rxn.ub
        objective := 0
        reaction_type := rxn.reaction_type
        gpr := rxn.gpr.map (fun g =>
          { proteins := g.proteins.map (fun pr =>
              { genes := pr.genes.map (rename o)
                metadata := pr.metadata })
            metadata := g.metadata })
        metadata := rxn.metadata }) := by
  rw [buildOrgRxn, if_neg hx]

theorem buildOrgRxn_eq_exchange {o : String} {b : Option String}
    {r : String} {rxn : CBReaction} {m : String} {coef : ℚ}
    {rest : List (String × ℚ)}
    (hx : rxn.reaction_type = ReactionType.exchange)
    (hs : rxn.stoichiometry = (m, coef) :: rest) :
    buildOrgRxn o b (r, rxn) = Except.ok (rename o r ++ "_INT",
      { id := rename o r ++ "_INT"
        reversible := true
        stoichiometry :=
          insertKeyed (rename o m) (-1) (insertKeyed m 1 [])
        lb := defaultLb true
        reaction_type := ReactionType.exchange
        metadata := rxn.metadata }) := by
  rw [buildOrgRxn, if_pos hx, hs]

theorem buildOrgRxn_objective {o : String} {b : Option String}
    {q : String × CBReaction} {pr : String × CBReaction}
    (h : buildOrgRxn o b q = Except.ok pr) : pr.2.objective = 0 := by
  rw [buildOrgRxn] at h
  by_cases hx : q.2.reaction_type = ReactionType.exchange
  · rw [if_pos hx] at h
    rcases hs : q.2.stoichiometry with _ | ⟨⟨m, coef⟩, rest⟩
    · rw [hs] at h
      cases h
    · rw [hs] at h
      injection h with h
      rw [← h]
  · rw [if_neg hx] at h
    injection h with h
    rw [← h]

theorem exchange_stoich (o m : String) :
    insertKeyed (rename o m) (-(1 : ℚ)) (insertKeyed m 1 []) =
      [(m, 1), (rename o m, -1)] := by
  show insertKeyed (rename o m) (-(1 : ℚ)) [(m, 1)] = _
  rw [insertKeyed, if_neg (Ne.symm (rename_ne o m))]
  rfl

theorem lookup_map_rename_none {o k : String} {l : List (String × ℚ)}
    (h : ∀ q ∈ l, rename o q.1 ≠ k) :
    lookupKey k (l.map (fun q => (rename o q.1, q.2))) = none := by
  induction l with
  | nil => rfl
  | cons q t ih =>
      show lookupKey k ((rename o q.1, q.2) :: _) = none
      rw [lookupKey, if_neg (h q (List.mem_cons_self _ _))]
      exact ih (fun r hr => h r (List.mem_cons_of_mem _ hr))

/-- C2: for every organism exchange reaction `r` whose stoichiometry has
exactly one metabolite term `(m, coef)`, the merged model contains the
reaction `rename(r) + "_INT"`, which is reversible, exchange-typed, and
has stoichiometry exactly `{original id of m: +1, rename(m): -1}`,
regardless of the original reaction's reversibility and bounds (no
hypothesis constrains them); the id-uniqueness hypothesis is the spec's
§3 invariant that merged reaction ids do not collide. -/
theorem c2_exchange_transport (c : Community) (o : String) (mdl : CBModel)
    (r_id : String) (rxn : CBReaction) (m : String) (coef : ℚ)
    (ho : (o, mdl) ∈ c.organisms) (hr : (r_id, rxn) ∈ mdl.reactions)
    (hx : rxn.reaction_type = ReactionType.exchange)
    (hs : rxn.stoichiometry = [(m, coef)])
    (hmo : mergeOk c = true)
    (hu : uniqueRxnId c (rename o r_id ++ "_INT") = true) :
    ∃ out nr, merge_models c = Except.ok out ∧
      lookupKey (rename o r_id ++ "_INT") out.model.reactions = some nr ∧
      nr.reversible = true ∧ nr.reaction_type = ReactionType.exchange ∧
      nr.stoichiometry = [(m, 1), (rename o m, -1)] := by
  rcases mergeOk_exists hmo with ⟨out, hm⟩
  rcases merge_ok_spec hm with ⟨ws, htr, hrxn, hmets⟩
  have hcount := uniqueRxnId_spec hu htr
  have hb := buildOrgRxn_eq_exchange (o := o) (b := mdl.biomass_reaction)
    (r := r_id) hx hs
  have hl := lookup_merged_built hm htr ho hr hb hcount
  exact ⟨out, _, hm, hl, rfl, rfl, exchange_stoich o m⟩

/-- C3: in every merged model (given the spec's §3 id-disjointness
invariant for the growth reaction id), the community growth reaction is
irreversible with bounds `[0, +inf)`, stoichiometry exactly
`{community biomass: -1}` and objective coefficient 1, and every other
reaction of the merged model carries objective coefficient 0 — even when
an original organism reaction had a non-zero objective coefficient (no
hypothesis constrains the organisms' objective coefficients). -/
theorem c3_growth_objective (c : Community)
    (hmo : mergeOk c = true) (hu : uniqueRxnId c comm_growth = true) :
    ∃ out gr, merge_models c = Except.ok out ∧
      lookupKey comm_growth out.model.reactions = some gr ∧
      gr.reversible = false ∧ gr.lb = Flt.val 0 ∧ gr.ub = Flt.posInf ∧
      gr.stoichiometry = [(biomass_id, -1)] ∧ gr.objective = 1 ∧
      (∀ p ∈ out.model.reactions, p.1 ≠ comm_growth →
        p.2.objective = 0) := by
  rcases mergeOk_exists hmo with ⟨out, hm⟩
  rcases merge_ok_spec hm with ⟨ws, htr, hrxn, hmets⟩
  have hcount := uniqueRxnId_spec hu htr
  rcases rxnTrace_parts htr with ⟨parts, hparts, hws⟩
  have hmemg : (comm_growth, growthRxn) ∈ ws := by
    rw [hws]
    exact List.mem_cons_self _ _
  have hlook : lookupKey comm_growth out.model.reactions =
      some growthRxn := by
    rw [hrxn, lookup_applyW, lastWrite_of_unique hmemg hcount]
  refine ⟨out, growthRxn, hm, hlook, rfl, rfl, rfl, rfl, rfl, ?_⟩
  intro p hp hpg
  rcases mem_applyW (hrxn ▸ hp) with hpw | hpw
  · rw [hws] at hpw
    rcases List.mem_cons.mp hpw with hpw' | hpw'
    · exact absurd (congrArg Prod.fst hpw') hpg
    · rcases List.mem_append.mp hpw' with hpw'' | hpw''
      · rcases List.mem_flatten.mp hpw'' with ⟨wsₒ, hwsₒ, hpmem⟩
        rcases mapE_ok_mem_rev hparts hwsₒ with ⟨org, _, horgtr⟩
        rcases mapE_ok_mem_rev horgtr hpmem with ⟨q, _, hq⟩
        exact buildOrgRxn_objective hq
      · rcases List.mem_map.mp hpw'' with ⟨mId, _, hmId⟩
        rw [← hmId]
        rfl
  · cases hpw

/-- C4: for every organism, the merged copy of a non-exchange reaction
has stoichiometry equal to the entry-by-entry renamed original
stoichiometry, with exactly one extra `+1` term on the community biomass
metabolite precisely when the reaction is the organism's designated
biomass reaction (first conjunct); and an organism exchange reaction's
merged `_INT` transport carries no community-biomass term (second
conjunct).  Hypotheses are the spec's §3 id-disjointness invariants. -/
theorem c4_biomass_term (c : Community) (hmo : mergeOk c = true) :
    ∃ out, merge_models c = Except.ok out ∧
      (∀ o mdl r_id rxn, (o, mdl) ∈ c.organisms →
        (r_id, rxn) ∈ mdl.reactions →
        rxn.reaction_type ≠ ReactionType.exchange →
        (∀ q ∈ rxn.stoichiometry, rename o q.1 ≠ biomass_id) →
        uniqueRxnId c (rename o r_id) = true →
        ∃ nr, lookupKey (rename o r_id) out.model.reactions = some nr ∧
          nr.stoichiometry =
            rxn.stoichiometry.map (fun q => (rename o q.1, q.2)) ++
              (if some r_id = mdl.biomass_reaction then [(biomass_id, 1)]
               else [])) ∧
      (∀ o mdl r_id rxn m coef rest, (o, mdl) ∈ c.organisms →
        (r_id, rxn) ∈ mdl.reactions →
        rxn.reaction_type = ReactionType.exchange →
        rxn.stoichiometry = (m, coef) :: rest →
        m ≠ biomass_id → rename o m ≠ biomass_id →
        uniqueRxnId c (rename o r_id ++ "_INT") = true →
        ∃ nr, lookupKey (rename o r_id ++ "_INT") out.model.reactions =
            some nr ∧
          lookupKey biomass_id nr.stoichiometry = none) := by
  rcases mergeOk_exists hmo with ⟨out, hm⟩
  rcases merge_ok_spec hm with ⟨ws, htr, hrxn, hmets⟩
  refine ⟨out, hm, ?_, ?_⟩
  · intro o mdl r_id rxn ho hr hx hb hu
    have hcount := uniqueRxnId_spec hu htr
    have hbr := buildOrgRxn_eq_nonexchange (o := o)
      (b := mdl.biomass_reaction) (r := r_id) hx
    have hl := lookup_merged_built hm htr ho hr hbr hcount
    refine ⟨_, hl, ?_⟩
    show (if some r_id = mdl.biomass_reaction then
        insertKeyed biomass_id 1
          (rxn.stoichiometry.map (fun q => (rename o q.1, q.2)))
      else rxn.stoichiometry.map (fun q => (rename o q.1, q.2))) = _
    by_cases hbio : some r_id = mdl.biomass_reaction
    · rw [if_pos hbio, if_pos hbio]
      exact insertKeyed_of_hasKey_false _
        (by rw [hasKey, lookup_map_rename_none hb]; rfl)
    · rw [if_neg hbio, if_neg hbio, List.append_nil]
  · intro o mdl r_id rxn m coef rest ho hr hx hs hm1 hm2 hu
    have hcount := uniqueRxnId_spec hu htr
    have hbr := buildOrgRxn_eq_exchange (o := o)
      (b := mdl.biomass_reaction) (r := r_id) hx hs
    have hl := lookup_merged_built hm htr ho hr hbr hcount
    refine ⟨_, hl, ?_⟩
    show lookupKey biomass_id
      (insertKeyed (rename o m) (-1) (insertKeyed m 1 [])) = none
    rw [exchange_stoich, lookupKey, if_neg hm1, lookupKey, if_neg hm2]
    rfl

/-- C6: for every non-exchange reaction, the merged reaction's GPR is the
deep rebuild of the original: same proteins in the same order, each
protein's gene list renamed entry-by-entry in order, metadata copied;
and absence of a GPR is preserved as absence (both captured by the
`Option.map` equation).  Hypotheses are the spec's §3 id-disjointness
invariants. -/
theorem c6_gpr_rebuild (c : Community) (o : String) (mdl : CBModel)
    (r_id : String) (rxn : CBReaction)
    (ho : (o, mdl) ∈ c.organisms) (hr : (r_id, rxn) ∈ mdl.reactions)
    (hx : rxn.reaction_type ≠ ReactionType.exchange)
    (hmo : mergeOk c = true)
    (hu : uniqueRxnId c (rename o r_id) = true) :
    ∃ out nr, merge_models c = Except.ok out ∧
      lookupKey (rename o r_id) out.model.reactions = some nr ∧
      nr.gpr = rxn.gpr.map (fun g =>
        { proteins := g.proteins.map (fun pr =>
            { genes := pr.genes.map (rename o)
              metadata := pr.metadata })
          metadata := g.metadata }) := by
  rcases mergeOk_exists hmo with ⟨out, hm⟩
  rcases merge_ok_spec hm with ⟨ws, htr, hrxn, hmets⟩
  have hcount := uniqueRxnId_spec hu htr
  have hbr := buildOrgRxn_eq_nonexchange (o := o)
    (b := mdl.biomass_reaction) (r := r_id) hx
  have hl := lookup_merged_built hm htr ho hr hbr hcount
  exact ⟨out, _, hm, hl, rfl⟩

theorem metsRun_append (l₁ l₂ : List (String × CBModel)) (st : MetSt) :
    metsRun (l₁ ++ l₂) st = metsRun l₂ (metsRun l₁ st) :=
  List.foldl_append _ _ _ _

/-- C1 (amended): for every metabolite id `m` introduced by some organism,
provided no organism's namespaced metabolite id equals `m` and `m` is not
the community biomass id, the merged model contains exactly one
metabolite with id `m`, it sits in the shared external compartment, and
it is the pooled copy created from the first organism (in registry
order) to introduce `m` (its display name and metadata); later organisms
do not create a second copy. -/
theorem c1_pooled_first_wins (c : Community) (m : String)
    (met₀ : Metabolite)
    (hbm : m ≠ biomass_id)
    (hns : ∀ org ∈ c.organisms, ∀ q ∈ org.2.metabolites,
      rename org.1 q.1 ≠ m)
    (hfi : firstIntro m c.organisms = some met₀)
    (hmo : mergeOk c = true) :
    ∃ out, merge_models c = Except.ok out ∧
      lookupKey m out.model.metabolites =
        some ⟨m, met₀.name, ext_comp_id, met₀.metadata⟩ ∧
      countK m out.model.metabolites = 1 := by
  rcases mergeOk_exists hmo with ⟨out, hm⟩
  rcases merge_ok_spec hm with ⟨ws, htr, hrxn, hmets⟩
  have hinit : lookupKey m initMetSt.1 = none := by
    show lookupKey m [(biomass_id,
      (⟨biomass_id, "Total community biomass", ext_comp_id, []⟩ :
        Metabolite))] = none
    rw [lookupKey, if_neg (Ne.symm hbm)]
    rfl
  have hlook : lookupKey m out.model.metabolites =
      some ⟨m, met₀.name, ext_comp_id, met₀.metadata⟩ := by
    rw [hmets, metsRun_lookup m c.organisms initMetSt hns, hinit]
    show (firstIntro m c.organisms).map _ = _
    rw [hfi]
    rfl
  have hnodup : keysNodup out.model.metabolites := by
    rw [hmets]
    apply keysNodup_metsRun
    show keysNodup [(biomass_id,
      (⟨biomass_id, "Total community biomass", ext_comp_id, []⟩ :
        Metabolite))]
    simp [keysNodup]
  exact ⟨out, hm, hlook, countK_eq_one_of_nodup hnodup hlook⟩

/-- C7: for every pooled external metabolite id `m` recorded during the
merge, the merged model contains exactly one reaction under the
community exchange id `exId m` (the exchange marker `R_EX_` followed by
`m` with its first two characters stripped when `m` starts with `M_`,
and by `m` unchanged otherwise); it is reversible, exchange-typed, with
stoichiometry exactly `{m: -1}`.  The uniqueness hypothesis is the
spec's §3 id-disjointness invariant for that id. -/
theorem c7_pool_exchange (c : Community) (m : String)
    (hmo : mergeOk c = true) (hmem : m ∈ extMetsOf c)
    (hu : uniqueRxnId c (exId m) = true) :
    ∃ out nr, merge_models c = Except.ok out ∧
      lookupKey (exId m) out.model.reactions = some nr ∧
      nr.reversible = true ∧ nr.reaction_type = ReactionType.exchange ∧
      nr.stoichiometry = [(m, -1)] ∧
      countK (exId m) out.model.reactions = 1 := by
  rcases mergeOk_exists hmo with ⟨out, hm⟩
  rcases merge_ok_spec hm with ⟨ws, htr, hrxn, hmets⟩
  have hcount := uniqueRxnId_spec hu htr
  rcases rxnTrace_parts htr with ⟨parts, hparts, hws⟩
  have hmemw : (exId m, (exchPair m).2) ∈ ws := by
    rw [hws]
    exact List.mem_cons_of_mem _
      (List.mem_append_right _ (List.mem_map_of_mem _ hmem))
  have hlook : lookupKey (exId m) out.model.reactions =
      some (exchPair m).2 := by
    rw [hrxn, lookup_applyW, lastWrite_of_unique hmemw hcount]
  refine ⟨out, (exchPair m).2, hm, hlook, rfl, rfl, rfl, ?_⟩
  have hnodup : keysNodup out.model.reactions := by
    rw [hrxn]
    exact keysNodup_applyW _ (by simp [keysNodup])
  exact countK_eq_one_of_nodup hnodup hlook

/-- C5 (amended): constructing a Community from a model list `[A, A']` in
which the two models share the same id yields `size() == 1` and emits
the non-fatal warning, and the organism retained under that id is `A'`,
the last-seen model with that id (dictionary assignment overwrites the
earlier entry). -/
theorem c5_duplicate_last_wins (cid : String) (A A' : CBModel)
    (h : A.id = A'.id) :
    (Community.build cid [A, A']).2 = true ∧
    (Community.build cid [A, A']).1.size = 1 ∧
    lookupKey A.id (Community.build cid [A, A']).1.organisms = some A' := by
  refine ⟨?_, ?_, ?_⟩
  · rw [Community.build]
    show decide (([A.id, A'.id].dedup).length < 2) = true
    rw [decide_eq_true_eq, h,
      List.dedup_cons_of_mem (List.mem_singleton.mpr rfl)]
    simp
  · rw [Community.build, Community.size]
    show (insertKeyed A'.id A' (insertKeyed A.id A [])).length = 1
    rw [show insertKeyed A.id A ([] : List (String × CBModel)) =
      [(A.id, A)] from rfl, insertKeyed, if_pos h]
    rfl
  · rw [Community.build]
    show lookupKey A.id
      (insertKeyed A'.id A' (insertKeyed A.id A [])) = some A'
    rw [show insertKeyed A.id A ([] : List (String × CBModel)) =
      [(A.id, A)] from rfl, insertKeyed, if_pos h, lookupKey, if_pos h.symm]

/-- C8 (amended): whenever some organism has an exchange-typed reaction
with an empty stoichiometry, the merge call fails with an error rather
than producing a merged model, and the first access to the merged model
propagates that error, leaving the cache unset (an exchange reaction
with two or more stoichiometry terms does not cause a failure — the
code silently uses the first term; see the counterexample). -/
theorem c8_empty_exchange_fails (c : Community) (o : String)
    (mdl : CBModel) (r : String) (rxn : CBReaction)
    (ho : (o, mdl) ∈ c.organisms) (hr : (r, rxn) ∈ mdl.reactions)
    (hx : rxn.reaction_type = ReactionType.exchange)
    (hs : rxn.stoichiometry = []) :
    ∃ e, merge_models c = Except.error e ∧
      merged_model_access c none = Except.error e := by
  rcases merge_error_spec ho hr hx hs with ⟨e, he⟩
  exact ⟨e, he, by rw [merged_model_access, he]⟩

/-- C9: for every community with at least one organism whose merge
succeeds, the first access to the merged model runs the merge (flag
`true`), caches the result, and every subsequent access (cache holding
the merged model) returns the identical cached model with the cache
unchanged and without re-running the merge (flag `false`). -/
theorem c9_lazy_cache (c : Community)
    (hn : 1 ≤ c.organisms.length) (hmo : mergeOk c = true) :
    ∃ out, merge_models c = Except.ok out ∧
      merged_model_access c none =
        Except.ok (out.model, some out.model, true) ∧
      merged_model_access c (some out.model) =
        Except.ok (out.model, some out.model, false) := by
  rcases mergeOk_exists hmo with ⟨out, hm⟩
  exact ⟨out, hm, by rw [merged_model_access, hm], rfl⟩

/-- C10: pooled-copy creation for a metabolite id `m` is suppressed by
any metabolite already stored under id `m`, including a namespaced
private copy of an earlier organism: when an earlier organism has a
metabolite `k` with `rename(k) = m`, a later organism introduces
original id `m`, and no organism up to and including the earlier one
introduces `m` as an original id, then `m` is never recorded as a pooled
external metabolite (hence no community-level exchange reaction is
created from it), and the merged model contains no metabolite with id
`m` in the shared external compartment. -/
theorem c10_pool_suppression (c : Community)
    (pre mid post : List (String × CBModel))
    (o : String) (mdl : CBModel) (o' : String) (mdl' : CBModel)
    (k : String) (met : Metabolite) (m : String) (met' : Metabolite)
    (horgs : c.organisms = pre ++ (o, mdl) :: mid ++ (o', mdl') :: post)
    (hk : (k, met) ∈ mdl.metabolites) (hm' : (m, met') ∈ mdl'.metabolites)
    (heq : rename o k = m) (hbm : m ≠ biomass_id)
    (hpre : ∀ org ∈ pre, ∀ q ∈ org.2.metabolites, q.1 ≠ m)
    (hself : ∀ q ∈ mdl.metabolites, q.1 ≠ m) :
    m ∉ extMetsOf c ∧
      ∀ out, merge_models c = Except.ok out →
        ∀ p ∈ out.model.metabolites, p.1 = m →
          p.2.compartment ≠ ext_comp_id := by
  have hext : m ∉ extMetsOf c := by
    rw [extMetsOf, horgs,
      show pre ++ (o, mdl) :: mid ++ (o', mdl') :: post =
        (pre ++ [(o, mdl)]) ++ (mid ++ (o', mdl') :: post) by simp,
      metsRun_append (pre ++ [(o, mdl)]) (mid ++ (o', mdl') :: post),
      metsRun_append pre [(o, mdl)]]
    have hpre' : m ∉ (metsRun pre initMetSt).2.1 :=
      metsRun_ext_no_new pre initMetSt hpre (List.not_mem_nil m)
    show m ∉ (metsRun (mid ++ (o', mdl') :: post)
      (mdl.metabolites.foldl (metStep o) (metsRun pre initMetSt))).2.1
    have hkey : hasKey m
        ((mdl.metabolites.foldl (metStep o) (metsRun pre initMetSt))).1 =
        true := by
      rw [← heq]
      exact metFold_hasKey_of_mem o mdl.metabolites _ hk
    have hnoext : m ∉
        ((mdl.metabolites.foldl (metStep o) (metsRun pre initMetSt))).2.1 :=
      metFold_ext_no_new o mdl.metabolites _ hself hpre'
    intro hmem
    exact hnoext ((metsRun_blocked _ _ hkey).2.mp hmem)
  refine ⟨hext, ?_⟩
  intro out hm p hp hpm
  rcases merge_ok_spec hm with ⟨ws, htr, hrxn, hmets⟩
  rw [hmets] at hp
  rcases metsRun_mem c.organisms initMetSt p hp with h1 | h1 | h1
  · have h1' : p ∈ [(biomass_id,
        (⟨biomass_id, "Total community biomass", ext_comp_id, []⟩ :
          Metabolite))] := h1
    have hpb := List.mem_singleton.mp h1'
    have hmb : m = biomass_id := by rw [← hpm, hpb]
    exact absurd hmb hbm
  · rcases h1 with ⟨org, _, q, _, hpq⟩
    rw [hpq]
    exact rename_ne_ext org.1 q.2.compartment
  · exact absurd (hpm ▸ h1) hext

/-! Concrete communities used as counterexamples and witnesses. -/

def exC1A : CBModel :=
  { id := "a"
    compartments := [("c1", ⟨"c1", "cyto", false⟩)]
    metabolites := [("m", ⟨"m", "met m", "c1", []⟩)] }

def exC1B : CBModel :=
  { id := "b"
    compartments := [("c2", ⟨"c2", "cyto", false⟩)]
    metabolites := [("m_a", ⟨"m_a", "strange", "c2", []⟩)] }

def exC1 : Community := ⟨"cx1", [("a", exC1A), ("b", exC1B)]⟩

/-- C1 (counterexample): in `exC1`, organism `b` introduces the
metabolite id `"m_a"`, the merge succeeds, and yet the merged model
contains no metabolite with id `"m_a"` in the shared external
compartment at all (organism `a`'s namespaced copy of `"m"` already
occupies the id, so the pooled copy is never created) — refuting the
claim that every introduced id yields exactly one pooled metabolite in
the external compartment. -/
theorem c1_counterexample :
    ("b", exC1B) ∈ exC1.organisms ∧
    ("m_a", (⟨"m_a", "strange", "c2", []⟩ : Metabolite)) ∈
      exC1B.metabolites ∧
    mergeOk exC1 = true ∧
    (merge_models exC1).toOption.map (fun out =>
      (out.model.metabolites.filter (fun p =>
        decide (p.1 = "m_a") &&
          decide (p.2.compartment = ext_comp_id))).length) = some 0 := by
  decide

def exC1wA : CBModel :=
  { id := "a"
    compartments := [("e", ⟨"e", "outer", true⟩)]
    metabolites := [("glc", ⟨"glc", "glucose", "e", [("src", "A")]⟩)] }

def exC1wB : CBModel :=
  { id := "b"
    compartments := [("e", ⟨"e", "outer", true⟩)]
    metabolites := [("glc", ⟨"glc", "glucose B", "e", []⟩)] }

def exC1w : Community := ⟨"cw1", [("a", exC1wA), ("b", exC1wB)]⟩

/-- C1 (witness for the amended theorem): two organisms sharing the
external metabolite id `"glc"` pool onto exactly one metabolite `"glc"`
in the external compartment, created from the first organism's copy. -/
theorem c1_pooled_witness :
    ("glc" ≠ biomass_id ∧
      (∀ org ∈ exC1w.organisms, ∀ q ∈ org.2.metabolites,
        rename org.1 q.1 ≠ "glc") ∧
      firstIntro "glc" exC1w.organisms =
        some ⟨"glc", "glucose", "e", [("src", "A")]⟩ ∧
      mergeOk exC1w = true) ∧
    (∃ out, merge_models exC1w = Except.ok out ∧
      lookupKey "glc" out.model.metabolites =
        some ⟨"glc", "glucose", ext_comp_id, [("src", "A")]⟩ ∧
      countK "glc" out.model.metabolites = 1) :=
  ⟨⟨by decide, by decide, by decide, by decide⟩,
    c1_pooled_first_wins exC1w "glc"
      ⟨"glc", "glucose", "e", [("src", "A")]⟩
      (by decide) (by decide) (by decide) (by decide)⟩

def exC2rxn : CBReaction :=
  { id := "EX_glc"
    name := "glc exchange"
    reversible := false
    stoichiometry := [("glc", -1)]
    lb := Flt.val 0
    ub := Flt.val 10
    objective := 5
    reaction_type := ReactionType.exchange }

def exC2m : CBModel :=
  { id := "org1"
    compartments := [("C", ⟨"C", "cytosol", false⟩)]
    metabolites := [("glc", ⟨"glc", "glucose", "C", []⟩)]
    reactions := [("EX_glc", exC2rxn)] }

def exC2 : Community := ⟨"c2", [("org1", exC2m)]⟩

/-- C2 (witness): an irreversible, bounded, objective-weighted exchange
reaction becomes the reversible `_INT` transport with stoichiometry
`{glc: +1, glc_org1: -1}`. -/
theorem c2_exchange_transport_witness :
    (("org1", exC2m) ∈ exC2.organisms ∧
      ("EX_glc", exC2rxn) ∈ exC2m.reactions ∧
      exC2rxn.reaction_type = ReactionType.exchange ∧
      exC2rxn.stoichiometry = [("glc", -1)] ∧
      mergeOk exC2 = true ∧
      uniqueRxnId exC2 (rename "org1" "EX_glc" ++ "_INT") = true) ∧
    (∃ out nr, merge_models exC2 = Except.ok out ∧
      lookupKey (rename "org1" "EX_glc" ++ "_INT") out.model.reactions =
        some nr ∧
      nr.reversible = true ∧ nr.reaction_type = ReactionType.exchange ∧
      nr.stoichiometry = [("glc", 1), (rename "org1" "glc", -1)]) :=
  ⟨by decide,
    c2_exchange_transport exC2 "org1" exC2m "EX_glc" exC2rxn "glc" (-1)
      (by decide) (by decide) (by decide) (by decide) (by decide)
      (by decide)⟩

def exC3rxn : CBReaction :=
  { id := "R1"
    stoichiometry := [("x", -1)]
    lb := Flt.val 0
    objective := 3 }

def exC3m : CBModel :=
  { id := "o3"
    compartments := [("C", ⟨"C", "cytosol", false⟩)]
    metabolites := [("x", ⟨"x", "met x", "C", []⟩)]
    reactions := [("R1", exC3rxn)] }

def exC3 : Community := ⟨"c3", [("o3", exC3m)]⟩

/-- C3 (witness): in a community whose organism reaction carries
objective coefficient 3, the merged model's growth reaction is the sole
objective and every other reaction has objective 0. -/
theorem c3_growth_objective_witness :
    (mergeOk exC3 = true ∧ uniqueRxnId exC3 comm_growth = true) ∧
    (∃ out gr, merge_models exC3 = Except.ok out ∧
      lookupKey comm_growth out.model.reactions = some gr ∧
      gr.reversible = false ∧ gr.lb = Flt.val 0 ∧ gr.ub = Flt.posInf ∧
      gr.stoichiometry = [(biomass_id, -1)] ∧ gr.objective = 1 ∧
      (∀ p ∈ out.model.reactions, p.1 ≠ comm_growth →
        p.2.objective = 0)) :=
  ⟨by decide, c3_growth_objective exC3 (by decide) (by decide)⟩

def exC4growth : CBReaction :=
  { id := "growth"
    reversible := false
    stoichiometry := [("s", -1), ("p", 1)]
    lb := Flt.val 0
    objective := 1 }

def exC4m : CBModel :=
  { id := "o4"
    compartments := [("C", ⟨"C", "cytosol", false⟩)]
    metabolites := [("s", ⟨"s", "substrate", "C", []⟩),
      ("p", ⟨"p", "product", "C", []⟩)]
    reactions := [("growth", exC4growth)]
    biomass_reaction := some "growth" }

def exC4 : Community := ⟨"c4", [("o4", exC4m)]⟩

/-- C4 (witness): the designated biomass reaction's merged stoichiometry
is the renamed original stoichiometry plus the single extra
`{community biomass: +1}` term. -/
theorem c4_biomass_term_witness :
    (mergeOk exC4 = true ∧ ("o4", exC4m) ∈ exC4.organisms ∧
      ("growth", exC4growth) ∈ exC4m.reactions ∧
      exC4growth.reaction_type ≠ ReactionType.exchange ∧
      (∀ q ∈ exC4growth.stoichiometry, rename "o4" q.1 ≠ biomass_id) ∧
      uniqueRxnId exC4 (rename "o4" "growth") = true) ∧
    (∃ out, merge_models exC4 = Except.ok out ∧
      ∃ nr, lookupKey (rename "o4" "growth") out.model.reactions =
          some nr ∧
        nr.stoichiometry =
          exC4growth.stoichiometry.map (fun q => (rename "o4" q.1, q.2)) ++
            (if some "growth" = exC4m.biomass_reaction then
              [(biomass_id, 1)] else [])) := by
  refine ⟨by decide, ?_⟩
  rcases c4_biomass_term exC4 (by decide) with ⟨out, hm, hA, hB⟩
  rcases hA "o4" exC4m "growth" exC4growth (by decide) (by decide)
    (by decide) (by decide) (by decide) with ⟨nr, hl, hst⟩
  exact ⟨out, hm, nr, hl, hst⟩

def exC6rxn : CBReaction :=
  { id := "R1"
    stoichiometry := [("x", -1), ("y", 1)]
    lb := Flt.negInf
    gpr := some ⟨[⟨["g1", "g2"], []⟩, ⟨["g3"], [("iso", "B")]⟩],
      [("note", "n")]⟩ }

def exC6m : CBModel :=
  { id := "o6"
    compartments := [("C", ⟨"C", "cytosol", false⟩)]
    metabolites := [("x", ⟨"x", "met x", "C", []⟩),
      ("y", ⟨"y", "met y", "C", []⟩)]
    genes := [("g1", ⟨"g1", "gene 1", []⟩), ("g2", ⟨"g2", "gene 2", []⟩),
      ("g3", ⟨"g3", "gene 3", []⟩)]
    reactions := [("R1", exC6rxn)] }

def exC6 : Community := ⟨"c6", [("o6", exC6m)]⟩

/-- C6 (witness): the GPR `(g1 AND g2) OR (g3)` is rebuilt as
`(g1_o6 AND g2_o6) OR (g3_o6)` with protein and gene order and metadata
preserved. -/
theorem c6_gpr_rebuild_witness :
    (("o6", exC6m) ∈ exC6.organisms ∧
      ("R1", exC6rxn) ∈ exC6m.reactions ∧
      exC6rxn.reaction_type ≠ ReactionType.exchange ∧
      mergeOk exC6 = true ∧
      uniqueRxnId exC6 (rename "o6" "R1") = true) ∧
    (∃ out nr, merge_models exC6 = Except.ok out ∧
      lookupKey (rename "o6" "R1") out.model.reactions = some nr ∧
      nr.gpr = exC6rxn.gpr.map (fun g =>
        { proteins := g.proteins.map (fun pr =>
            { genes := pr.genes.map (rename "o6")
              metadata := pr.metadata })
          metadata := g.metadata })) :=
  ⟨by decide,
    c6_gpr_rebuild exC6 "o6" exC6m "R1" exC6rxn (by decide) (by decide)
      (by decide) (by decide) (by decide)⟩

def exC7m : CBModel :=
  { id := "o7"
    compartments := [("C", ⟨"C", "cytosol", false⟩)]
    metabolites := [("M_o2", ⟨"M_o2", "oxygen", "C", []⟩)] }

def exC7 : Community := ⟨"c7", [("o7", exC7m)]⟩

/-- C7 (witness): the pooled metabolite `"M_o2"` gets exactly one
community exchange reaction `R_EX_o2` (the `M_` marker is stripped),
reversible, consuming it with coefficient -1. -/
theorem c7_pool_exchange_witness :
    (mergeOk exC7 = true ∧ "M_o2" ∈ extMetsOf exC7 ∧
      uniqueRxnId exC7 (exId "M_o2") = true) ∧
    (∃ out nr, merge_models exC7 = Except.ok out ∧
      lookupKey (exId "M_o2") out.model.reactions = some nr ∧
      nr.reversible = true ∧ nr.reaction_type = ReactionType.exchange ∧
      nr.stoichiometry = [("M_o2", -1)] ∧
      countK (exId "M_o2") out.model.reactions = 1) :=
  ⟨by decide, c7_pool_exchange exC7 "M_o2" (by decide) (by decide)
    (by decide)⟩

def exC5A : CBModel := { id := "x" }

def exC5B : CBModel := { id := "x", biomass_reaction := some "b" }

/-- C5 (counterexample): building a community from `[A, A']` with equal
ids warns and keeps one organism, but the retained model is `A'` (the
last one), not `A` — refuting "the organism retained under that id is A,
the first-seen model". -/
theorem c5_counterexample :
    (Community.build "c" [exC5A, exC5B]).2 = true ∧
    (Community.build "c" [exC5A, exC5B]).1.size = 1 ∧
    lookupKey "x" (Community.build "c" [exC5A, exC5B]).1.organisms =
      some exC5B ∧ exC5B ≠ exC5A := by
  decide

/-- C5 (witness for the amended theorem). -/
theorem c5_duplicate_witness :
    exC5A.id = exC5B.id ∧
    ((Community.build "c" [exC5A, exC5B]).2 = true ∧
      (Community.build "c" [exC5A, exC5B]).1.size = 1 ∧
      lookupKey exC5A.id
        (Community.build "c" [exC5A, exC5B]).1.organisms = some exC5B) :=
  ⟨rfl, c5_duplicate_last_wins "c" exC5A exC5B rfl⟩

def exC8rxn : CBReaction :=
  { id := "EX"
    stoichiometry := [("a", 1), ("b", -1)]
    lb := Flt.negInf
    reaction_type := ReactionType.exchange }

def exC8m : CBModel :=
  { id := "o"
    compartments := [("C", ⟨"C", "cytosol", false⟩)]
    metabolites := [("a", ⟨"a", "met a", "C", []⟩),
      ("b", ⟨"b", "met b", "C", []⟩)]
    reactions := [("EX", exC8rxn)] }

def exC8 : Community := ⟨"c8", [("o", exC8m)]⟩

/-- C8 (counterexample): an organism exchange reaction whose
stoichiometry has two metabolite terms (not exactly one) does not make
the merge fail — the merge succeeds, silently using the first term —
refuting "the merge call fails whenever some exchange reaction does not
have exactly one metabolite term". -/
theorem c8_counterexample :
    ("o", exC8m) ∈ exC8.organisms ∧
    ("EX", exC8rxn) ∈ exC8m.reactions ∧
    exC8rxn.reaction_type = ReactionType.exchange ∧
    exC8rxn.stoichiometry.length ≠ 1 ∧
    mergeOk exC8 = true := by
  decide

def exC8erxn : CBReaction :=
  { id := "EX"
    stoichiometry := []
    lb := Flt.negInf
    reaction_type := ReactionType.exchange }

def exC8em : CBModel :=
  { id := "o"
    reactions := [("EX", exC8erxn)] }

def exC8e : Community := ⟨"c8e", [("o", exC8em)]⟩

/-- C8 (witness for the amended theorem): an exchange reaction with an
empty stoichiometry makes the merge and the first cached access fail. -/
theorem c8_empty_exchange_witness :
    (("o", exC8em) ∈ exC8e.organisms ∧
      ("EX", exC8erxn) ∈ exC8em.reactions ∧
      exC8erxn.reaction_type = ReactionType.exchange ∧
      exC8erxn.stoichiometry = []) ∧
    (∃ e, merge_models exC8e = Except.error e ∧
      merged_model_access exC8e none = Except.error e) :=
  ⟨by decide,
    c8_empty_exchange_fails exC8e "o" exC8em "EX" exC8erxn (by decide)
      (by decide) (by decide) rfl⟩

def exC9m : CBModel :=
  { id := "o9"
    compartments := [("C", ⟨"C", "cytosol", false⟩)]
    metabolites := [("x", ⟨"x", "met x", "C", []⟩)] }

def exC9 : Community := ⟨"c9", [("o9", exC9m)]⟩

/-- C9 (witness): first access runs the merge and caches; the second
access returns the identical cached model without recomputation. -/
theorem c9_lazy_cache_witness :
    (1 ≤ exC9.organisms.length ∧ mergeOk exC9 = true) ∧
    (∃ out, merge_models exC9 = Except.ok out ∧
      merged_model_access exC9 none =
        Except.ok (out.model, some out.model, true) ∧
      merged_model_access exC9 (some out.model) =
        Except.ok (out.model, some out.model, false)) :=
  ⟨by decide, c9_lazy_cache exC9 (by decide) (by decide)⟩

def exC10met : Metabolite := ⟨"m", "met m", "c1", []⟩

def exC10met' : Metabolite := ⟨"m_a", "strange", "c2", []⟩

def exC10A : CBModel :=
  { id := "a"
    compartments := [("c1", ⟨"c1", "cyto", false⟩)]
    metabolites := [("m", exC10met)] }

def exC10B : CBModel :=
  { id := "b"
    compartments := [("c2", ⟨"c2", "cyto", false⟩)]
    metabolites := [("m_a", exC10met')] }

def exC10 : Community := ⟨"cx10", [("a", exC10A), ("b", exC10B)]⟩

/-- C10 (witness): organism `a`'s namespaced copy `m_a` of its
metabolite `m` blocks organism `b`'s original id `m_a` from ever being
pooled: `m_a` is not recorded as a pooled external metabolite and no
metabolite with id `m_a` sits in the external compartment. -/
theorem c10_pool_suppression_witness :
    (exC10.organisms = [] ++ ("a", exC10A) :: [] ++ ("b", exC10B) :: [] ∧
      ("m", exC10met) ∈ exC10A.metabolites ∧
      ("m_a", exC10met') ∈ exC10B.metabolites ∧
      rename "a" "m" = "m_a" ∧ "m_a" ≠ biomass_id ∧
      (∀ org ∈ ([] : List (String × CBModel)),
        ∀ q ∈ org.2.metabolites, q.1 ≠ "m_a") ∧
      (∀ q ∈ exC10A.metabolites, q.1 ≠ "m_a")) ∧
    ("m_a" ∉ extMetsOf exC10 ∧
      ∀ out, merge_models exC10 = Except.ok out →
        ∀ p ∈ out.model.metabolites, p.1 = "m_a" →
          p.2.compartment ≠ ext_comp_id) :=
  ⟨⟨rfl, by decide, by decide, by decide, by decide, by decide,
      by decide⟩,
    c10_pool_suppression exC10 [] [] [] "a" exC10A "b" exC10B "m"
      exC10met "m_a" exC10met' rfl (by decide) (by decide) (by decide)
      (by decide) (by decide) (by decide)⟩
